import Mathlib

/-!
Verification of the jsonlogicui rule-visualization core: a shallow embedding of
the Tree Builder, Label Formatter, Layout Engine and Flowchart Emitter
(`src/unnamed/part_001` and `src/src/app/page.tsx`), with theorems settling the
spec claims about them.

Conventions of the embedding:
* JSON-shaped rule values become the inductive `Rule`; an operation object is
  `Rule.obj entries` whose first entry's key is the operator (matching
  `Object.keys(rule)[0]`).
* JavaScript `undefined` (out-of-range index access) is modelled with `Option`.
* The mutually recursive builders that can diverge in the source
  (`createChainedIfNode` recurses on a list that stops shrinking) are embedded
  with an explicit fuel parameter; `none` means the recursion did not finish
  within the given fuel, and a result that is `none` for every fuel witnesses
  divergence.
* Numbers are embedded as integers (`Int`); geometry uses `ℚ` so that the
  halving in the centring arithmetic is exact.
-/

namespace JsonLogicUi

/-- A JSON-shaped rule expression: primitive, array, or operator object
(`Object.keys` order is the entry-list order; the first key is the operator). -/
inductive Rule : Type where
  | null : Rule
  | bool (b : Bool) : Rule
  | num (n : Int) : Rule
  | str (s : String) : Rule
  | list (items : List Rule) : Rule
  | obj (entries : List (String × Rule)) : Rule

/-- JS `Array.prototype.join(sep)` on already-stringified elements. -/
def joinSep (sep : String) : List String → String
  | [] => ""
  | [s] => s
  | s :: rest => s ++ sep ++ joinSep sep (rest)

mutual

/-- JS `String(v)` coercion of a rule value. -/
def jsToString : Rule → String
  | .null => "null"
  | .bool b => toString b
  | .num n => toString n
  | .str s => s
  | .obj _ => "[object Object]"
  | .list xs => joinSep "," (jsElemStrings xs)

/-- Elements under `Array.prototype.toString`: `null` renders as the empty
string inside a join. -/
def jsElemStrings : List Rule → List String
  | [] => []
  | .null :: rest => "" :: jsElemStrings rest
  | r :: rest => jsToString r :: jsElemStrings rest

end

/-- JS `String(v)` where `v` may be `undefined` (e.g. an out-of-range index). -/
def jsToStringU : Option Rule → String
  | none => "undefined"
  | some r => jsToString r

def isCompOp (op : String) : Bool :=
  op == "==" || op == "===" || op == "!=" || op == "!==" ||
  op == ">" || op == ">=" || op == "<" || op == "<="

def isArithOp (op : String) : Bool :=
  op == "+" || op == "-" || op == "*" || op == "/" || op == "%"

def isIterOp (op : String) : Bool :=
  op == "map" || op == "filter" || op == "reduce" ||
  op == "all" || op == "some" || op == "none"

/-- The `opNames` table of the iteration-operator branch of `buildLabel`. -/
def iterOpName (op : String) : String :=
  if op == "map" then "MAP"
  else if op == "filter" then "FILTER"
  else if op == "reduce" then "REDUCE"
  else if op == "all" then "ALL"
  else if op == "some" then "SOME"
  else "NONE"

/-- The `var` branch of `buildLabel`: quoted path, `(item)` for the empty
path, `data` for anything path-less. -/
def buildLabelVar (operands : Rule) : String :=
  match operands with
  | .str s => if s == "" then "(item)" else "\"" ++ s ++ "\""
  | .list l =>
    match l.head? with
    | some (.str "") => "(item)"
    | h => "\"" ++ jsToStringU h ++ "\""
  | _ => "data"

mutual

/-- `buildLabel` from `src/unnamed/part_001`: human-readable label for a rule.
The operator dispatch of its object case is split out as `buildLabelOp`, and
each operator family's rendering as its own function, purely so that Lean can
generate usable unfolding equations; the branch bodies and their order are the
source's. -/
def buildLabel (rule : Rule) (compact : Bool) : String :=
  match rule with
  | .null => "null"
  | .str s => "\"" ++ s ++ "\""
  | .num n => toString n
  | .bool b => toString b
  | .list xs =>
    if compact || decide (xs.length > 3) then
      "[" ++ toString xs.length ++ " items]"
    else
      "[" ++ joinSep ", " (buildLabels xs) ++ "]"
  | .obj [] => "\x7b\x7d"
  | .obj ((operator, operands) :: _) => buildLabelOp operator operands
termination_by (sizeOf rule, 0)
decreasing_by all_goals (first | omega | (simp_wf; omega))

/-- `operands.map(o => buildLabel(o, true))`. -/
def buildLabels : List Rule → List String
  | [] => []
  | r :: rest => buildLabel r true :: buildLabels rest
termination_by xs => (sizeOf xs, 0)
decreasing_by all_goals (first | omega | (simp_wf; omega))

/-- The operator if-chain of `buildLabel`.  A comparison / `in` / `and` /
`or` / arithmetic guard that fails in the source falls through every later
operator-name check and lands on the final `"operator(...)"` default, which is
what the non-matching branches of the family functions return. -/
def buildLabelOp (operator : String) (operands : Rule) : String :=
  if operator == "var" then buildLabelVar operands
  else if isCompOp operator then buildLabelComp operator operands
  else if operator == "and" then buildLabelJoin " AND " operator operands
  else if operator == "or" then buildLabelJoin " OR " operator operands
  else if operator == "!" || operator == "!!" then
    (if operator == "!" then "NOT " else "BOOL ") ++ buildLabelBangInner operands
  else if operator == "in" then buildLabelIn operator operands
  else if isArithOp operator then
    buildLabelJoin (" " ++ operator ++ " ") operator operands
  else if isIterOp operator then iterOpName operator ++ "(...)"
  else operator ++ "(...)"
termination_by (sizeOf operands, 2)
decreasing_by all_goals omega

/-- The comparison branch: infix `left op right` when there are two operands
in an array. -/
def buildLabelComp (operator : String) (operands : Rule) : String :=
  match operands with
  | .list (a :: b :: _) =>
    buildLabel a true ++ " " ++ operator ++ " " ++ buildLabel b true
  | _ => operator ++ "(...)"
termination_by (sizeOf operands, 1)
decreasing_by all_goals (first | omega | (simp_wf; omega))

/-- The `and`/`or`/arithmetic branches: operand labels joined with the
separator. -/
def buildLabelJoin (sep operator : String) (operands : Rule) : String :=
  match operands with
  | .list xs => joinSep sep (buildLabels xs)
  | _ => operator ++ "(...)"
termination_by (sizeOf operands, 1)
decreasing_by all_goals (first | omega | (simp_wf; omega))

/-- The `!`/`!!` branch's inner value:
`Array.isArray(operands) ? operands[0] : operands`, rendered with
`buildLabel`; `operands[0]` of an empty array is `undefined`, which the
template literal renders verbatim. -/
def buildLabelBangInner : Rule → String
  | .list [] => "undefined"
  | .list (a :: _) => buildLabel a true
  | r => buildLabel r true
termination_by r => (sizeOf r, 1)
decreasing_by all_goals (first | omega | (simp_wf; omega))

/-- The `in` branch: `needle in haystack` when there are two operands. -/
def buildLabelIn (operator : String) (operands : Rule) : String :=
  match operands with
  | .list (a :: b :: _) =>
    buildLabel a true ++ " in " ++ buildLabelHaystack b
  | _ => operator ++ "(...)"
termination_by (sizeOf operands, 1)
decreasing_by all_goals (first | omega | (simp_wf; omega))

/-- The `in` branch's haystack rendering: arrays as `"[N items]"` regardless of
compactness, anything else through `buildLabel`. -/
def buildLabelHaystack : Rule → String
  | .list h => "[" ++ toString h.length ++ " items]"
  | r => buildLabel r true
termination_by r => (sizeOf r, 1)
decreasing_by all_goals omega

end

/-- `buildLabel` applied to a possibly-`undefined` value; JS stringifies
`undefined` through the template literal. -/
def buildLabelU : Option Rule → String
  | none => "undefined"
  | some r => buildLabel r true

/-- JSON string-body escaping, character by character. -/
def jsonEscapeChars : List Char → List Char
  | [] => []
  | c :: rest =>
    (if c = Char.ofNat 34 then [Char.ofNat 92, Char.ofNat 34]
     else if c = Char.ofNat 92 then [Char.ofNat 92, Char.ofNat 92]
     else if c = Char.ofNat 10 then [Char.ofNat 92, 'n']
     else [c]) ++ jsonEscapeChars rest

mutual

/-- `JSON.stringify` of a rule value (string escaping modelled for the
backslash, quote and newline). -/
def jsonStringify : Rule → String
  | .null => "null"
  | .bool b => toString b
  | .num n => toString n
  | .str s => "\"" ++ String.mk (jsonEscapeChars s.data) ++ "\""
  | .list xs => "[" ++ joinSep "," (jsonStringifyList xs) ++ "]"
  | .obj entries => "\x7b" ++ joinSep "," (jsonStringifyEntries entries) ++ "\x7d"

def jsonStringifyList : List Rule → List String
  | [] => []
  | r :: rest => jsonStringify r :: jsonStringifyList rest

def jsonStringifyEntries : List (String × Rule) → List String
  | [] => []
  | (k, v) :: rest =>
    ("\"" ++ String.mk (jsonEscapeChars k.data) ++ "\":" ++ jsonStringify v) ::
      jsonStringifyEntries rest

end


/-! ## The Rendering Tree (`TreeNode` of `src/types/tree.ts`) -/

/-- `NodeType` from `src/types/tree.ts`. -/
inductive NodeType : Type where
  | operator | variable | value | array | object
deriving DecidableEq

/-- A rendering-tree node. Layout fields are computed separately by the layout
engine (the source leaves them `undefined` until then), and the
`evaluationResult`/`isActive` annotations are external to this core, so neither
appears here. `value` is `Option Rule` because a branch value taken from a
too-short operand list is JS `undefined`. -/
inductive TreeNode : Type where
  | mk
    (id : String)
    (type : NodeType)
    (label : String)
    (operator : Option String)
    (value : Option Rule)
    (children : List TreeNode)
    (parent : Option String)
    (depth : Nat)
    (path : List String)
    (expanded : Bool)
    (highlighted : Bool)
    (selected : Bool)

def TreeNode.id : TreeNode → String
  | .mk i _ _ _ _ _ _ _ _ _ _ _ => i

def TreeNode.type : TreeNode → NodeType
  | .mk _ t _ _ _ _ _ _ _ _ _ _ => t

def TreeNode.label : TreeNode → String
  | .mk _ _ l _ _ _ _ _ _ _ _ _ => l

def TreeNode.operator : TreeNode → Option String
  | .mk _ _ _ o _ _ _ _ _ _ _ _ => o

def TreeNode.value : TreeNode → Option Rule
  | .mk _ _ _ _ v _ _ _ _ _ _ _ => v

def TreeNode.children : TreeNode → List TreeNode
  | .mk _ _ _ _ _ c _ _ _ _ _ _ => c

def TreeNode.parent : TreeNode → Option String
  | .mk _ _ _ _ _ _ p _ _ _ _ _ => p

def TreeNode.depth : TreeNode → Nat
  | .mk _ _ _ _ _ _ _ d _ _ _ _ => d

def TreeNode.path : TreeNode → List String
  | .mk _ _ _ _ _ _ _ _ p _ _ _ => p

def TreeNode.expanded : TreeNode → Bool
  | .mk _ _ _ _ _ _ _ _ _ e _ _ => e

/-! ## The Tree Builder (`parseRuleToTree` of `src/unnamed/part_001`)

The builder increments a module-level id counter; we thread it explicitly.
`createChainedIfNode` recurses on `operands.slice(2)`, which stops shrinking
once the list is empty, so the whole family is given a fuel parameter: every
function consumes one unit of fuel per call and `none` reports fuel
exhaustion. A rule on which the result is `none` for *every* fuel is one on
which the source recursion never returns. -/

/-- `generateNodeId`: `node-${++nodeIdCounter}`. -/
def generateNodeId (counter : Nat) : String × Nat :=
  ("node-" ++ toString (counter + 1), counter + 1)

/-- `isSimpleValue`: primitives and bare single-key `var` objects are simple. -/
def isSimpleValue : Rule → Bool
  | .list _ => false
  | .obj [(k, _)] => k == "var"
  | .obj _ => false
  | _ => true

/-- `createValueNode`. -/
def createValueNode (label : String) (value : Rule) (parentId : Option String)
    (depth : Nat) (path : List String) (counter : Nat) : TreeNode × Nat :=
  let (id, c) := generateNodeId counter
  (.mk id .value label none (some value) [] parentId depth path true false false, c)

/-- `createVariableNode`; note that `varName = operands || 'data'` turns an
empty-string path into `"data"` before the `(current item)` test runs. -/
def createVariableNode (operands : Rule) (parentId : Option String)
    (depth : Nat) (path : List String) (counter : Nat) : TreeNode × Nat :=
  let varName : String :=
    match operands with
    | .str s => if s == "" then "data" else s
    | .num n => toString n
    | .list l => let s := jsToStringU l.head?; if s == "" then "data" else s
    | _ => "data"
  let defaultValue : Option Rule :=
    match operands with
    | .list l => l[1]?
    | _ => none
  let displayLabel := if varName == "" then "(current item)" else "$" ++ varName
  let (id, c1) := generateNodeId counter
  match defaultValue with
  | none =>
    (.mk id .variable displayLabel none (some (.obj [("var", operands)])) []
      parentId depth path true false false, c1)
  | some dv =>
    let (child, c2) :=
      createValueNode ("default: " ++ jsonStringify dv) dv (some id) (depth + 1)
        (path ++ ["var", "[1]"]) c1
    (.mk id .variable displayLabel none (some (.obj [("var", operands)])) [child]
      parentId depth path true false false, c2)

/-- `typeof op === 'object' && op !== null` for a rule value (arrays and
objects; `null` is excluded explicitly in the source test). -/
def isComplexShape : Rule → Bool
  | .list _ => true
  | .obj _ => true
  | _ => false

/-- Whether a rule is an object whose first key is `if` or `?:`. -/
def isIfShaped : Rule → Bool
  | .obj ((k, _) :: _) => k == "if" || k == "?:"
  | _ => false

mutual

/-- `parseRuleToTree`. The module counter is reset to `0` whenever a pass
starts at depth `0`. -/
def parseRuleToTree (fuel : Nat) (rule : Rule) (parentId : Option String)
    (depth : Nat) (path : List String) (counter : Nat) :
    Option (TreeNode × Nat) :=
  let counter := if depth == 0 then 0 else counter
  match fuel with
  | 0 => none
  | fuel + 1 =>
    match rule with
    | .null => some (createValueNode "null" .null parentId depth path counter)
    | .str s =>
      some (createValueNode ("\"" ++ s ++ "\"") (.str s) parentId depth path counter)
    | .num n =>
      some (createValueNode (toString n) (.num n) parentId depth path counter)
    | .bool b =>
      some (createValueNode (toString b) (.bool b) parentId depth path counter)
    | .list items =>
      let (id, c1) := generateNodeId counter
      (parseArrayItems fuel items id (depth + 1) path 0 c1).map fun (cs, c2) =>
        (.mk id .array ("[" ++ toString items.length ++ " items]") none
          (some (.list items)) cs parentId depth path (decide (depth < 3))
          false false, c2)
    | .obj [] =>
      some (createValueNode "\x7b\x7d" (.obj []) parentId depth path counter)
    | .obj ((operator, operands) :: restEntries) =>
      if operator == "var" then
        some (createVariableNode operands parentId depth path counter)
      else
        match operands, (operator == "if" || operator == "?:" : Bool) with
        | .list ops, true =>
          createIfNode fuel ops parentId depth path
            (.obj ((operator, operands) :: restEntries)) counter
        | _, _ =>
          parseOperatorNode fuel operator operands
            (.obj ((operator, operands) :: restEntries)) parentId depth path counter

/-- The generic-operator tail of `parseRuleToTree`: label the whole operation,
and add children only for operands that are complex. -/
def parseOperatorNode (fuel : Nat) (operator : String) (operands : Rule)
    (rule : Rule) (parentId : Option String) (depth : Nat) (path : List String)
    (counter : Nat) : Option (TreeNode × Nat) :=
  match fuel with
  | 0 => none
  | fuel + 1 =>
    let label := buildLabel rule false
    let (id, c1) := generateNodeId counter
    let mkNode := fun (cs : List TreeNode) (c : Nat) =>
      (TreeNode.mk id .operator label (some operator) (some rule) cs parentId
        depth path (decide (depth < 4)) false false, c)
    match operands with
    | .list ops =>
      if ops.any (fun op => isComplexShape op && !isSimpleValue op) then
        (parseComplexOperands fuel (ops.filter fun op =>
            isComplexShape op && !isSimpleValue op)
          id operator (depth + 1) path 0 c1).map fun (cs, c2) => mkNode cs c2
      else
        some (mkNode [] c1)
    | .null => some (mkNode [] c1)
    | .bool _ | .num _ | .str _ => some (mkNode [] c1)
    | .obj entries =>
      (parseRuleToTree fuel (.obj entries) (some id) (depth + 1)
        (path ++ [operator]) c1).map fun (child, c2) => mkNode [child] c2

/-- `rule.map((item, index) => parseRuleToTree(item, id, depth+1, path ++ [i]))`. -/
def parseArrayItems (fuel : Nat) (items : List Rule) (parentId : String)
    (depth : Nat) (path : List String) (index : Nat) (counter : Nat) :
    Option (List TreeNode × Nat) :=
  match fuel with
  | 0 => none
  | fuel + 1 =>
    match items with
    | [] => some ([], counter)
    | item :: rest =>
      (parseRuleToTree fuel item (some parentId) depth
        (path ++ ["[" ++ toString index ++ "]"]) counter).bind fun (n, c1) =>
      (parseArrayItems fuel rest parentId depth path (index + 1) c1).map
        fun (ns, c2) => (n :: ns, c2)

/-- The complex-operand children of a generic operator node: the source maps
over the filtered operand list, the index in the recorded path being the
position in the filtered list. -/
def parseComplexOperands (fuel : Nat) (ops : List Rule) (parentId : String)
    (operator : String) (depth : Nat) (path : List String) (index : Nat)
    (counter : Nat) : Option (List TreeNode × Nat) :=
  match fuel with
  | 0 => none
  | fuel + 1 =>
    match ops with
    | [] => some ([], counter)
    | op :: rest =>
      (parseRuleToTree fuel op (some parentId) depth
        (path ++ [operator, "[" ++ toString index ++ "]"]) counter).bind
        fun (n, c1) =>
      (parseComplexOperands fuel rest parentId operator depth path (index + 1)
        c1).map fun (ns, c2) => (n :: ns, c2)

/-- `createIfNode`: the condition is the node, with true/false result
branches; more than three operands defer to the chained decomposition. -/
def createIfNode (fuel : Nat) (ops : List Rule) (parentId : Option String)
    (depth : Nat) (path : List String) (rule : Rule) (counter : Nat) :
    Option (TreeNode × Nat) :=
  match fuel with
  | 0 => none
  | fuel + 1 =>
    match ops with
    | [] => some (createValueNode "IF ?" rule parentId depth path counter)
    | [_] => some (createValueNode "IF ?" rule parentId depth path counter)
    | c :: v :: restOps =>
      if restOps.length > 1 then
        createChainedIfNode fuel (c :: v :: restOps) parentId depth path rule counter
      else
        let conditionLabel := buildLabel c false
        let (id, c1) := generateNodeId counter
        (createResultNode fuel (some v) id (depth + 1) (path ++ ["then"]) true
          c1).bind fun (trueNode, c2) =>
        let mkIf := fun (cs : List TreeNode) (cn : Nat) =>
          (TreeNode.mk id .operator conditionLabel (some "if") (some rule) cs
            parentId depth path true false false, cn)
        match restOps with
        | [] => some (mkIf [trueNode] c2)
        | elseResult :: _ =>
          match elseResult, isIfShaped elseResult with
          | _, true =>
            (parseRuleToTree fuel elseResult (some id) (depth + 1)
              (path ++ ["else"]) c2).map fun (nestedIf, c3) =>
              mkIf [trueNode, nestedIf] c3
          | _, false =>
            (createResultNode fuel (some elseResult) id (depth + 1)
              (path ++ ["else"]) false c2).map fun (falseNode, c3) =>
              mkIf [trueNode, falseNode] c3

/-- `createChainedIfNode`: recurses on `operands.slice(2)` with no base case
for an empty remainder. -/
def createChainedIfNode (fuel : Nat) (ops : List Rule) (parentId : Option String)
    (depth : Nat) (path : List String) (rule : Rule) (counter : Nat) :
    Option (TreeNode × Nat) :=
  match fuel with
  | 0 => none
  | fuel + 1 =>
    let conditionLabel :=
      match ops.head? with
      | some c => buildLabel c false
      | none => "undefined"
    let (id, c1) := generateNodeId counter
    (createResultNode fuel ops[1]? id (depth + 1) (path ++ ["then"]) true
      c1).bind fun (trueNode, c2) =>
    let mkIf := fun (cs : List TreeNode) (cn : Nat) =>
      (TreeNode.mk id .operator conditionLabel (some "if") (some rule) cs
        parentId depth path true false false, cn)
    let remaining := ops.drop 2
    match remaining with
    | [d] =>
      (createResultNode fuel (some d) id (depth + 1) (path ++ ["else"]) false
        c2).map fun (falseNode, c3) => mkIf [trueNode, falseNode] c3
    | _ =>
      (createChainedIfNode fuel remaining (some id) (depth + 1)
        (path ++ ["else"]) rule c2).map fun (nested, c3) =>
        mkIf [trueNode, nested] c3

/-- `createResultNode` for IF branches; `result` is `Option` because a chained
`if` can read past the end of its operand list. -/
def createResultNode (fuel : Nat) (result : Option Rule) (parentId : String)
    (depth : Nat) (path : List String) (isTrueBranch : Bool) (counter : Nat) :
    Option (TreeNode × Nat) :=
  match fuel with
  | 0 => none
  | fuel + 1 =>
    let branchOp : Option String :=
      some (if isTrueBranch then "true_branch" else "false_branch")
    let mkRes := fun (label : String) (ty : NodeType) =>
      let (id, c1) := generateNodeId counter
      some (TreeNode.mk id ty label branchOp result [] (some parentId) depth
        path true false false, c1)
    match result with
    | none => mkRes "undefined" .value
    | some .null => mkRes "null" .value
    | some (.str s) => mkRes ("\"" ++ s ++ "\"") .value
    | some (.num n) => mkRes (toString n) .value
    | some (.bool b) => mkRes (toString b) .value
    | some (.list xs) => mkRes ("[" ++ toString xs.length ++ " items]") .array
    | some (.obj []) => parseRuleToTree fuel (.obj []) (some parentId) depth path counter
    | some (.obj ((k, v) :: restE)) =>
      if k == "var" then
        mkRes (buildLabel (.obj ((k, v) :: restE)) false) .variable
      else
        parseRuleToTree fuel (.obj ((k, v) :: restE)) (some parentId) depth path counter

end

end JsonLogicUi

namespace JsonLogicUi

/-! ## Tree utilities (`flattenTree`, `findNodeById`, toggle/expand/collapse)

The source functions deep-clone the tree (`JSON.parse(JSON.stringify(root))`)
and mutate the clone; values here are immutable, so the clone-then-mutate is
embedded as pure reconstruction with the same result.  `findNodeById` returns
the first match of a preorder traversal (node before children, children in
order), which is the node the toggle mutates. -/

mutual

/-- `flattenTree`: preorder listing of every node (expansion ignored). -/
def flattenTree (node : TreeNode) : List TreeNode :=
  match node with
  | .mk i t l o v cs p d pa e hi se =>
    .mk i t l o v cs p d pa e hi se :: flattenForest cs

def flattenForest : List TreeNode → List TreeNode
  | [] => []
  | c :: rest => flattenTree c ++ flattenForest rest

end

mutual

/-- Whether `findNodeById` would find `nodeId` inside this subtree. -/
def treeContains (node : TreeNode) (nodeId : String) : Bool :=
  match node with
  | .mk i _ _ _ _ cs _ _ _ _ _ _ => i == nodeId || forestContains cs nodeId

def forestContains : List TreeNode → String → Bool
  | [], _ => false
  | c :: rest, nodeId => treeContains c nodeId || forestContains rest nodeId

end

mutual

/-- `toggleNodeExpansion`: clone the tree and negate the `expanded` flag of the
first preorder node whose id matches (if any). -/
def toggleNodeExpansion (root : TreeNode) (nodeId : String) : TreeNode :=
  match root with
  | .mk i t l o v cs p d pa e hi se =>
    if i == nodeId then .mk i t l o v cs p d pa (!e) hi se
    else .mk i t l o v (toggleForest cs nodeId) p d pa e hi se

def toggleForest : List TreeNode → String → List TreeNode
  | [], _ => []
  | c :: rest, nodeId =>
    if treeContains c nodeId then toggleNodeExpansion c nodeId :: rest
    else c :: toggleForest rest nodeId

end

mutual

/-- The action of `expandAllNodes` on a subtree: every `expanded` flag true. -/
def setAllExpanded (node : TreeNode) : TreeNode :=
  match node with
  | .mk i t l o v cs p d pa _ hi se =>
    .mk i t l o v (setForestExpanded cs) p d pa true hi se

def setForestExpanded : List TreeNode → List TreeNode
  | [] => []
  | c :: rest => setAllExpanded c :: setForestExpanded rest

end

/-- `expandAllNodes`. -/
def expandAllNodes (root : TreeNode) : TreeNode := setAllExpanded root

mutual

/-- The action of `collapseAllNodes` on non-root subtrees: every `expanded`
flag false. -/
def setAllCollapsed (node : TreeNode) : TreeNode :=
  match node with
  | .mk i t l o v cs p d pa _ hi se =>
    .mk i t l o v (setForestCollapsed cs) p d pa false hi se

def setForestCollapsed : List TreeNode → List TreeNode
  | [] => []
  | c :: rest => setAllCollapsed c :: setForestCollapsed rest

end

/-- `collapseAllNodes`: the clone's root is kept expanded
(`clone.expanded = true`), every other node (`flattenTree(clone).slice(1)`)
is collapsed. -/
def collapseAllNodes (root : TreeNode) : TreeNode :=
  match root with
  | .mk i t l o v cs p d pa _ hi se =>
    .mk i t l o v (setForestCollapsed cs) p d pa true hi se

mutual

/-- Erase the `expanded` flags of a tree (set them all to `false`): two trees
with equal `stripExpanded` images agree on everything except expansion. -/
def stripExpanded (node : TreeNode) : TreeNode :=
  match node with
  | .mk i t l o v cs p d pa _ hi se =>
    .mk i t l o v (stripForest cs) p d pa false hi se

def stripForest : List TreeNode → List TreeNode
  | [] => []
  | c :: rest => stripExpanded c :: stripForest rest

end

mutual

/-- The preorder list of `(id, expanded)` pairs of a tree. -/
def expansionFlags (node : TreeNode) : List (String × Bool) :=
  match node with
  | .mk i _ _ _ _ cs _ _ _ e _ _ => (i, e) :: forestExpansionFlags cs

def forestExpansionFlags : List TreeNode → List (String × Bool)
  | [] => []
  | c :: rest => expansionFlags c ++ forestExpansionFlags rest

end

end JsonLogicUi

namespace JsonLogicUi

/-! ## The Layout Engine (`calculateTreeLayout` of `src/unnamed/part_001`)

Vertical orientation with the default configuration
(`nodeHeight = 44`, `horizontalSpacing = 24`, `verticalSpacing = 50`,
`CHAR_WIDTH = 8`, `MIN_NODE_WIDTH = 120`, `MAX_NODE_WIDTH = 400`,
`NODE_PADDING = 60`).  The source mutates `x`/`y`/`width` fields on the nodes;
here the same assignment is embedded as a function from a subtree and the
origin of its allocated span to the list of placed visible nodes, mirroring
`assignVerticalPositions` followed by `collectNodes`. -/

/-- `calculateNodeWidth`: proportional to the label length, clamped. -/
def calculateNodeWidth (label : String) : ℚ :=
  ((min (max (label.length * 8 + 60) 120) 400 : ℕ) : ℚ)

mutual

/-- `calculateSubtreeWidths` (post-order): a collapsed node or leaf takes its
own width; otherwise the children's widths plus spacing, at least the node's
own width. -/
def subtreeWidth (node : TreeNode) : ℚ :=
  match node with
  | .mk _ _ l _ _ cs _ _ _ e _ _ =>
    if !e || cs.isEmpty then calculateNodeWidth l
    else max (calculateNodeWidth l) (childrenWidthAcc cs (-24))

/-- The source's `reduce((sum, child) => sum + subtreeWidth(child) + spacing,
-spacing)` left fold. -/
def childrenWidthAcc : List TreeNode → ℚ → ℚ
  | [], acc => acc
  | c :: rest, acc => childrenWidthAcc rest (acc + subtreeWidth c + 24)

end

/-- A positioned visible node: id, assigned `x`, `y` and `width`
(height is the constant 44). -/
structure Placed where
  id : String
  x : ℚ
  y : ℚ
  w : ℚ

/-- The geometry `assignVerticalPositions` gives one node: centred within the
span `[x, x + subtreeWidth]` allocated to its subtree, at vertical offset
`y`. -/
def placedOf (node : TreeNode) (x y : ℚ) : Placed :=
  ⟨node.id, x + (subtreeWidth node - calculateNodeWidth node.label) / 2, y,
    calculateNodeWidth node.label⟩

mutual

/-- `assignVerticalPositions` followed by `collectNodes`: the placed visible
nodes of the subtree rooted at `node`, whose span starts at `x` on row `y`.
Children sit `nodeHeight + verticalSpacing = 94` below, each offset by the
cumulative subtree widths (plus spacing) of its preceding siblings. -/
def placeV (node : TreeNode) (x y : ℚ) : List Placed :=
  match node with
  | .mk i t l o v cs p d pa e hi se =>
    if !e || cs.isEmpty then [placedOf (.mk i t l o v cs p d pa e hi se) x y]
    else
      placedOf (.mk i t l o v cs p d pa e hi se) x y ::
        placeRow cs x (y + 44 + 50)

def placeRow : List TreeNode → ℚ → ℚ → List Placed
  | [], _, _ => []
  | c :: rest, cx, cy =>
    placeV c cx cy ++ placeRow rest (cx + subtreeWidth c + 24) cy

end

/-- The same row of children, kept as one group of placed nodes per sibling
subtree (so `placeRow cs cx cy = (placeGroups cs cx cy).join`). -/
def placeGroups : List TreeNode → ℚ → ℚ → List (List Placed)
  | [], _, _ => []
  | c :: rest, cx, cy =>
    placeV c cx cy :: placeGroups rest (cx + subtreeWidth c + 24) cy

mutual

/-- `createEdges`: one (parent placement, child placement) pair per visible
edge; a collapsed node contributes none. -/
def placeEdges (node : TreeNode) (x y : ℚ) : List (Placed × Placed) :=
  match node with
  | .mk i t l o v cs p d pa e hi se =>
    if !e then []
    else edgeRow (placedOf (.mk i t l o v cs p d pa e hi se) x y) cs x (y + 44 + 50)

def edgeRow (parentP : Placed) : List TreeNode → ℚ → ℚ → List (Placed × Placed)
  | [], _, _ => []
  | c :: rest, cx, cy =>
    ((parentP, placedOf c cx cy) :: placeEdges c cx cy) ++
      edgeRow parentP rest (cx + subtreeWidth c + 24) cy

end

/-- `calculateDimensions` + the final margins of `calculateTreeLayout`. -/
def calculateDimensions (nodes : List Placed) : ℚ × ℚ :=
  let maxX := nodes.foldl (fun m p => max m (p.x + p.w)) 0
  let maxY := nodes.foldl (fun m p => max m (p.y + 44)) 0
  (maxX + 24, maxY + 50)

/-- The layout result consumed by `calculateFitZoom` (edge path strings are
presentation-only and omitted). -/
structure TreeLayout where
  nodes : List Placed
  width : ℚ
  height : ℚ

/-- `calculateTreeLayout` in vertical orientation with the default config. -/
def calculateTreeLayout (root : TreeNode) : TreeLayout :=
  let nodes := placeV root 0 0
  ⟨nodes, (calculateDimensions nodes).1, (calculateDimensions nodes).2⟩

/-- `calculateFitZoom`: `Math.min((vw - 2p)/width, (vh - 2p)/height, 1)` with
default padding `40`. -/
def calculateFitZoom (layout : TreeLayout) (viewportWidth viewportHeight : ℚ)
    (padding : ℚ := 40) : ℚ :=
  min (min ((viewportWidth - padding * 2) / layout.width)
        ((viewportHeight - padding * 2) / layout.height)) 1

/-- Two groups of placed nodes are horizontally separated: everything in the
first ends strictly left of everything in the second. -/
def SpanSep (g₁ g₂ : List Placed) : Prop :=
  ∀ p ∈ g₁, ∀ q ∈ g₂, p.x + p.w < q.x

mutual

/-- At every visible expanded node of the laid-out tree, the placements of the
distinct sibling subtrees below it are pairwise horizontally separated. -/
def SiblingsDisjoint (node : TreeNode) (x y : ℚ) : Prop :=
  match node with
  | .mk _ _ _ _ _ cs _ _ _ e _ _ =>
    if !e || cs.isEmpty then True
    else
      List.Pairwise SpanSep (placeGroups cs x (y + 44 + 50)) ∧
        SiblingsDisjointRow cs x (y + 44 + 50)

def SiblingsDisjointRow : List TreeNode → ℚ → ℚ → Prop
  | [], _, _ => True
  | c :: rest, cx, cy =>
    SiblingsDisjoint c cx cy ∧ SiblingsDisjointRow rest (cx + subtreeWidth c + 24) cy

end

end JsonLogicUi

namespace JsonLogicUi

/-! ## The Flowchart Emitter (`toMermaidFlowchart` of `src/src/app/page.tsx`)

Characters that the hard-coded diagram syntax would misparse are written via
`Char.ofNat` code points: 34 `"`, 39 apostrophe, 60 `<`, 62 `>`, 123/125 the
curly braces, 124 the pipe, 10 newline, 32 space, 47 slash.  The emitter
mutates a module-level `nodeCounter` and two arrays `lines`/`connections`;
these are threaded as an explicit `EmitState`.  `processIfNode` and
`processResultNode` recurse into each other through nested `if` results, so
this family carries the same fuel discipline as the Tree Builder. -/

def escQuote (c : Char) : Char :=
  if c = Char.ofNat 34 then Char.ofNat 39 else c

def isStrippedChar (c : Char) : Bool :=
  c == Char.ofNat 60 || c == Char.ofNat 62 || c == Char.ofNat 123 || c == Char.ofNat 125

def escNewline (c : Char) : Char :=
  if c = Char.ofNat 10 then Char.ofNat 32 else c

def escPipe (c : Char) : Char :=
  if c = Char.ofNat 124 then Char.ofNat 47 else c

/-- `escapeLabel`: quotes to apostrophes, `<>` and braces removed, newlines to
spaces, pipes to slashes, truncated to 50 characters — in that order. -/
def escapeLabel (text : String) : String :=
  String.mk
    (((((text.data.map escQuote).filter fun c => !isStrippedChar c).map
      escNewline).map escPipe).take 50)

/-- `formatVarName` (also inlined in `processVarNode`): the variable path with
`'data'` substituted for anything empty or non-pathlike. -/
def formatVarName : Rule → String
  | .str s => if s == "" then "data" else s
  | .num n => toString n
  | .list l => let s := jsToStringU l.head?; if s == "" then "data" else s
  | _ => "data"

/-- The apostrophe, as a string. -/
def singleQuote : String := String.mk [Char.ofNat 39]

/-- `formatOperand`: one operand of a comparison/`in` condition, compactly. -/
def formatOperand : Rule → String
  | .str s => singleQuote ++ s ++ singleQuote
  | .null => "null"
  | .num n => toString n
  | .bool b => toString b
  | .list xs => "[" ++ toString xs.length ++ " items]"
  | .obj [] => "\x7b\x7d"
  | .obj ((k, v) :: _) =>
    if k == "var" then formatVarName v else k ++ "(...)"

mutual

/-- `buildConditionLabel`: the fully-expanded boolean text of an `if`
condition; guard failures fall through to the `"operator(...)"` default as in
`buildLabel`. -/
def buildConditionLabel (condition : Rule) : String :=
  match condition with
  | .null => "null"
  | .bool b => toString b
  | .num n => toString n
  | .str s => s
  | .list xs => jsonStringify (.list xs)
  | .obj [] => "\x7b\x7d"
  | .obj ((operator, operands) :: _) =>
    if isCompOp operator then
      match operands with
      | .list (a :: b :: _) =>
        formatOperand a ++ " " ++ operator ++ " " ++ formatOperand b
      | _ => operator ++ "(...)"
    else if operator == "in" then
      match operands with
      | .list (a :: b :: _) =>
        formatOperand a ++ " in " ++ formatOperand b
      | _ => operator ++ "(...)"
    else if operator == "and" then
      match operands with
      | .list xs => joinSep " AND " (buildConditionLabels xs)
      | _ => operator ++ "(...)"
    else if operator == "or" then
      match operands with
      | .list xs => joinSep " OR " (buildConditionLabels xs)
      | _ => operator ++ "(...)"
    else if operator == "!" then
      "NOT " ++ buildConditionLabelBangInner operands
    else
      operator ++ "(...)"
termination_by (sizeOf condition, 0)
decreasing_by all_goals (first | omega | (simp_wf; omega))

def buildConditionLabels : List Rule → List String
  | [] => []
  | r :: rest => buildConditionLabel r :: buildConditionLabels rest
termination_by xs => (sizeOf xs, 0)
decreasing_by all_goals (first | omega | (simp_wf; omega))

/-- `Array.isArray(operands) ? operands[0] : operands` under
`buildConditionLabel`; an empty array's `operands[0]` is `undefined`. -/
def buildConditionLabelBangInner : Rule → String
  | .list [] => "undefined"
  | .list (a :: _) => buildConditionLabel a
  | r => buildConditionLabel r
termination_by r => (sizeOf r, 1)
decreasing_by all_goals (first | omega | (simp_wf; omega))

end

/-- The module-level state of one `toMermaidFlowchart` call. -/
structure EmitState where
  counter : Nat
  lines : List String
  connections : List String

/-- `generateNodeId` of the emitter: `n${++nodeCounter}`. -/
def genFlowId (st : EmitState) : String × EmitState :=
  ("n" ++ toString (st.counter + 1), ⟨st.counter + 1, st.lines, st.connections⟩)

def pushLine (s : String) (st : EmitState) : EmitState :=
  ⟨st.counter, st.lines ++ [s], st.connections⟩

def pushConn (s : String) (st : EmitState) : EmitState :=
  ⟨st.counter, st.lines, st.connections ++ [s]⟩

/-- `if (parentId) connections.push(...)`. -/
def connectTo (parentId : Option String) (id : String) (st : EmitState) : EmitState :=
  match parentId with
  | none => st
  | some p => pushConn ("    " ++ p ++ " --> " ++ id) st

/-- `processVarNode`: parallelogram input marker for a `var` reference. -/
def processVarNode (operands : Rule) (parentId : Option String)
    (st : EmitState) : String × EmitState :=
  let (id, st) := genFlowId st
  let varName := formatVarName operands
  (id, connectTo parentId id
    (pushLine ("    " ++ id ++ "[/" ++ escapeLabel varName ++ "/]") st))

mutual

/-- `processNode`. -/
def processNode (fuel : Nat) (rule : Rule) (parentId : Option String)
    (includeValues : Bool) (st : EmitState) : Option (String × EmitState) :=
  match fuel with
  | 0 => none
  | fuel + 1 =>
    match rule with
    | .null =>
      let (id, st) := genFlowId st
      some (id, connectTo parentId id (pushLine ("    " ++ id ++ "([null])") st))
    | .str s =>
      let (id, st) := genFlowId st
      let label := escapeLabel ("\"" ++ s ++ "\"")
      some (id, connectTo parentId id
        (pushLine ("    " ++ id ++ "([" ++ label ++ "])") st))
    | .num n =>
      let (id, st) := genFlowId st
      some (id, connectTo parentId id
        (pushLine ("    " ++ id ++ "([" ++ toString n ++ "])") st))
    | .bool b =>
      let (id, st) := genFlowId st
      some (id, connectTo parentId id
        (pushLine ("    " ++ id ++ "([" ++ toString b ++ "])") st))
    | .list xs =>
      let (id, st) := genFlowId st
      let st := connectTo parentId id (pushLine ("    " ++ id ++ "[[Array]]") st)
      if includeValues then
        (processNodeList fuel xs id includeValues st).map fun st => (id, st)
      else
        some (id, st)
    | .obj [] =>
      let (id, st) := genFlowId st
      some (id, connectTo parentId id
        (pushLine ("    " ++ id ++ "([\x7b\x7d])") st))
    | .obj ((operator, operands) :: _) =>
      if operator == "var" then
        some (processVarNode operands parentId st)
      else if operator == "if" then
        processIfNode fuel operands parentId includeValues st
      else if isCompOp operator then
        processComparisonNode fuel operator operands parentId includeValues st
      else if operator == "and" || operator == "or" then
        processLogicalNode fuel operator operands parentId includeValues st
      else
        let (id, st) := genFlowId st
        let st := connectTo parentId id
          (pushLine ("    " ++ id ++ "\x7b\x7b" ++ escapeLabel operator ++ "\x7d\x7d") st)
        match operands with
        | .list ops =>
          (processNodeList fuel ops id includeValues st).map fun st => (id, st)
        | .null => some (id, st)
        | other =>
          (processNode fuel other (some id) includeValues st).map
            fun (_, st) => (id, st)

/-- `operands.forEach(op => processNode(op, id, ...))`. -/
def processNodeList (fuel : Nat) (ops : List Rule) (parentId : String)
    (includeValues : Bool) (st : EmitState) : Option EmitState :=
  match fuel with
  | 0 => none
  | fuel + 1 =>
    match ops with
    | [] => some st
    | op :: rest =>
      (processNode fuel op (some parentId) includeValues st).bind fun (_, st) =>
        processNodeList fuel rest parentId includeValues st

/-- `processIfNode`: a diamond labelled with the full condition text, then the
two branch results. -/
def processIfNode (fuel : Nat) (operands : Rule) (parentId : Option String)
    (includeValues : Bool) (st : EmitState) : Option (String × EmitState) :=
  match fuel with
  | 0 => none
  | fuel + 1 =>
    match operands with
    | .list (o0 :: o1 :: restOps) =>
      let conditionLabel := buildConditionLabel o0
      let (id, st) := genFlowId st
      let st := pushLine
        ("    " ++ id ++ "\x7b\"" ++ escapeLabel conditionLabel ++ "\"\x7d") st
      let st := pushLine ("    class " ++ id ++ " condition") st
      let st := connectTo parentId id st
      (processResultNode fuel o1 includeValues st).bind fun (thenId, st) =>
      let st := pushConn
        ("    " ++ id ++ " -->|\"✓ Yes\"| " ++ thenId) st
      match restOps with
      | [] => some (id, st)
      | o2 :: _ =>
        (processResultNode fuel o2 includeValues st).map fun (elseId, st) =>
          (id, pushConn ("    " ++ id ++ " -->|\"✗ No\"| " ++ elseId) st)
    | _ =>
      -- `!Array.isArray(operands) || operands.length < 2`
      let (id, st) := genFlowId st
      let st := pushLine ("    " ++ id ++ "\x7b\x7b\"IF ?\"\x7d\x7d") st
      let st := pushLine ("    class " ++ id ++ " condition") st
      some (id, connectTo parentId id st)

/-- `processResultNode`: a then/else target — another diamond when the result
is itself an `if`/`?:`, a styled variable parallelogram for a bare `var`, a
styled result terminator otherwise. -/
def processResultNode (fuel : Nat) (rule : Rule) (includeValues : Bool)
    (st : EmitState) : Option (String × EmitState) :=
  match fuel with
  | 0 => none
  | fuel + 1 =>
    match rule, isIfShaped rule with
    | .obj ((_, v) :: _), true => processIfNode fuel v none includeValues st
    | _, _ =>
      let (id, st) := genFlowId st
      match rule with
      | .obj ((k, v) :: _) =>
        if k == "var" then
          let label := formatVarName v
          let st := pushLine
            ("    " ++ id ++ "[/\"" ++ escapeLabel label ++ "\"/]") st
          some (id, pushLine ("    class " ++ id ++ " variable") st)
        else
          let label := k ++ "(...)"
          let st := pushLine
            ("    " ++ id ++ "([\"" ++ escapeLabel label ++ "\"])") st
          some (id, pushLine ("    class " ++ id ++ " result") st)
      | _ =>
        let label :=
          match rule with
          | .null => "null"
          | .str s => "\"" ++ escapeLabel s ++ "\""
          | .num n => toString n
          | .bool b => toString b
          | .list _ => (jsonStringify rule).take 30
          | .obj [] => "undefined(...)"
          | .obj _ => ""
        let st := pushLine
          ("    " ++ id ++ "([\"" ++ escapeLabel label ++ "\"])") st
        some (id, pushLine ("    class " ++ id ++ " result") st)

/-- `processComparisonNode`: diamond with the bare operator, one edge per
operand. -/
def processComparisonNode (fuel : Nat) (operator : String) (operands : Rule)
    (parentId : Option String) (includeValues : Bool) (st : EmitState) :
    Option (String × EmitState) :=
  match fuel with
  | 0 => none
  | fuel + 1 =>
    let (id, st) := genFlowId st
    let st := connectTo parentId id
      (pushLine ("    " ++ id ++ "\x7b" ++ escapeLabel operator ++ "\x7d") st)
    match operands with
    | .list ops =>
      (processNodeList fuel ops id includeValues st).map fun st => (id, st)
    | _ => some (id, st)

/-- `processLogicalNode`: hexagon `and`/`or` with one edge per operand. -/
def processLogicalNode (fuel : Nat) (operator : String) (operands : Rule)
    (parentId : Option String) (includeValues : Bool) (st : EmitState) :
    Option (String × EmitState) :=
  match fuel with
  | 0 => none
  | fuel + 1 =>
    let (id, st) := genFlowId st
    let st := connectTo parentId id
      (pushLine ("    " ++ id ++ "\x7b\x7b" ++ operator ++ "\x7d\x7d") st)
    match operands with
    | .list ops =>
      (processNodeList fuel ops id includeValues st).map fun st => (id, st)
    | _ => some (id, st)

end

/-- The fixed preamble of every emitted document. -/
def flowchartHeader (orientation : String) : List String :=
  ["flowchart " ++ orientation,
   "",
   "  %% Styling",
   "  classDef condition fill:#fef3c7,stroke:#f59e0b,color:#92400e",
   "  classDef result fill:#d1fae5,stroke:#10b981,color:#065f46",
   "  classDef variable fill:#dbeafe,stroke:#3b82f6,color:#1e40af",
   "  classDef operator fill:#f3e8ff,stroke:#a855f7,color:#6b21a8",
   ""]

/-- `toMermaidFlowchart` up to the final join: the node counter is reset to 0,
the header and style block are emitted, and the rule is processed. -/
def emitFlowchart (fuel : Nat) (rule : Rule) (orientation : String := "TD")
    (includeValues : Bool := true) : Option EmitState :=
  (processNode fuel rule none includeValues
    ⟨0, flowchartHeader orientation, []⟩).map Prod.snd

/-- `toMermaidFlowchart`: the joined document text. -/
def toMermaidFlowchart (fuel : Nat) (rule : Rule) (orientation : String := "TD")
    (includeValues : Bool := true) : Option String :=
  (emitFlowchart fuel rule orientation includeValues).map fun st =>
    joinSep "\n" (st.lines ++ [""] ++ st.connections)

end JsonLogicUi

namespace JsonLogicUi

/-! ## Concrete rules and shape predicates used by the claims -/

/-- Scenario 2 of the spec: `{">=": [{"var": "age"}, 18]}`. -/
def scenario2Rule : Rule :=
  .obj [(">=", .list [.obj [("var", .str "age")], .num 18])]

/-- A chained `if` with an even operand count:
`{"if": [true, 1, false, 2]}`. -/
def chainedIf4Rule : Rule :=
  .obj [("if", .list [.bool true, .num 1, .bool false, .num 2])]

/-- Scenario 3 of the spec:
`{"if": [{">":[{"var":"age"},18]}, "adult", "minor"]}`. -/
def scenario3Rule : Rule :=
  .obj [("if", .list [.obj [(">", .list [.obj [("var", .str "age")], .num 18])],
    .str "adult", .str "minor"])]

/-- Operators whose `buildLabel` rendering is a separator-join of the operand
labels (and can therefore be empty when the operand list is). -/
def isVariadicJoinOp (op : String) : Bool :=
  op == "and" || op == "or" || isArithOp op

def isEmptyList : Rule → Bool
  | .list [] => true
  | _ => false

mutual

/-- No `and`/`or`/arithmetic operation anywhere in the rule has an empty
operand array — the shapes on which `buildLabel` degenerates to a join of
nothing. -/
def okShape : Rule → Bool
  | .null => true
  | .bool _ => true
  | .num _ => true
  | .str _ => true
  | .list xs => okShapeList xs
  | .obj [] => true
  | .obj ((op, v) :: _) =>
    (!isVariadicJoinOp op || !isEmptyList v) && okShape v

def okShapeList : List Rule → Bool
  | [] => true
  | r :: rest => okShape r && okShapeList rest

end

end JsonLogicUi

namespace JsonLogicUi

/-! ## Definitions supporting the claim statements -/

/-- The relation claim C5 asserts between the preorder `(id, expanded)` lists
before and after a toggle: ids agree everywhere, and the flag agrees at every
node whose id is not the toggled one. -/
def FlagAgrees (nodeId : String) (a b : String × Bool) : Prop :=
  a.1 = b.1 ∧ (a.1 ≠ nodeId → a.2 = b.2)

/-- Negate the `expanded` flag of the first entry carrying the given id and
leave every other entry untouched — the action `toggleNodeExpansion` has on
the preorder `(id, expanded)` list (the first preorder match is the node
`findNodeById` returns and the toggle mutates). -/
def negateFirst (nodeId : String) : List (String × Bool) → List (String × Bool)
  | [] => []
  | a :: rest =>
    if a.1 == nodeId then (a.1, !a.2) :: rest
    else a :: negateFirst nodeId rest

/-- A character that is safe for the emitter's line syntax: not a double
quote, angle bracket, curly brace, pipe, or newline. -/
def safeChar (c : Char) : Bool :=
  !(c == Char.ofNat 34) && !(c == Char.ofNat 60) && !(c == Char.ofNat 62) &&
  !(c == Char.ofNat 123) && !(c == Char.ofNat 125) && !(c == Char.ofNat 124) &&
  !(c == Char.ofNat 10)

/-- A diamond node declaration is the only line shape with exactly one opening
curly brace (hexagons open with two, terminators/parallelograms with none). -/
def isDiamondLine (l : String) : Bool :=
  (l.data.filter fun c => c == Char.ofNat 123).length == 1

/-- Lines that declare a rounded "terminator" node with a quoted label, the
emitter's result-node shape. -/
def isQuotedTerminatorLine (l : String) : Bool :=
  (l.data.tails.any fun t => "([\"".data.isPrefixOf t)

def linesContaining (sub : String) (ls : List String) : Nat :=
  (ls.filter fun l => l.data.tails.any fun t => sub.data.isPrefixOf t).length

/-- The total width `Σ (subtreeWidth c + spacing)` of a row of children; the
source's fold equals `childrenSum cs − spacing` for a non-empty row. -/
def childrenSum : List TreeNode → ℚ
  | [] => 0
  | c :: rest => subtreeWidth c + 24 + childrenSum rest

end JsonLogicUi

namespace JsonLogicUi

/-! ## Helper lemmas -/

theorem le_toDigitsCore_length : ∀ (f n : Nat) (ds : List Char),
    ds.length ≤ (Nat.toDigitsCore 10 f n ds).length := by
  intro f
  induction f with
  | zero => intro n ds; simp [Nat.toDigitsCore]
  | succ f ih =>
    intro n ds
    simp only [Nat.toDigitsCore]
    split
    · simp
    · exact le_trans (by simp) (ih (n / 10) _)

theorem one_le_repr_length (n : Nat) : 1 ≤ (Nat.repr n).length := by
  show 1 ≤ (Nat.toDigits 10 n).asString.length
  have h : (Nat.toDigits 10 n).asString.length = (Nat.toDigits 10 n).length := rfl
  rw [h]
  show 1 ≤ (Nat.toDigitsCore 10 (n + 1) n []).length
  simp only [Nat.toDigitsCore]
  split
  · simp
  · exact le_trans (by simp) (le_toDigitsCore_length n (n / 10) _)

theorem one_le_int_repr_length (n : Int) : 1 ≤ (Int.repr n).length := by
  cases n with
  | ofNat m => exact one_le_repr_length m
  | negSucc m =>
    show 1 ≤ ("-" ++ Nat.repr (m + 1)).length
    rw [String.length_append]
    have := one_le_repr_length (m + 1)
    omega

theorem append_length_pos_left (a b : String) (ha : 0 < a.length) :
    0 < (a ++ b).length := by
  rw [String.length_append]; omega

theorem append_length_pos_right (a b : String) (hb : 0 < b.length) :
    0 < (a ++ b).length := by
  rw [String.length_append]; omega

theorem joinSep_length_ge_head (sep s : String) (rest : List String) :
    s.length ≤ (joinSep sep (s :: rest)).length := by
  cases rest with
  | nil => simp [joinSep]
  | cons b r => simp [joinSep, String.length_append]; omega

/-! ## Claim C2 -/

theorem buildLabel_varAge :
    buildLabel (.obj [("var", .str "age")]) true = "\"age\"" := by
  simp [buildLabel, buildLabelOp, buildLabelVar]

theorem buildLabel_scenario2 :
    buildLabel (.obj [(">=", .list [.obj [("var", .str "age")], .num 18])])
      false = "\"age\" >= 18" := by
  simp [buildLabel, buildLabelOp, buildLabelComp, isCompOp, buildLabel_varAge]
  rfl

/-- C2 (counterexample): building `{">=": [{"var":"age"}, 18]}` with the Tree
Builder yields the label `"age" >= 18` — `buildLabel` renders the variable
operand quoted, not as `$age` — so the claimed label `$age >= 18` is wrong. -/
theorem claim_c2_counterexample :
    ((parseRuleToTree 10 scenario2Rule none 0 [] 0).map fun p => p.1.label) =
        some "\"age\" >= 18" ∧
    ((parseRuleToTree 10 scenario2Rule none 0 [] 0).map fun p => p.1.label) ≠
        some "$age >= 18" := by
  have h : (parseRuleToTree 10 scenario2Rule none 0 [] 0).map (fun p => p.1.label)
      = some "\"age\" >= 18" := by
    simp [scenario2Rule, parseRuleToTree, parseOperatorNode, buildLabel_scenario2,
      isSimpleValue, isComplexShape, generateNodeId, TreeNode.label]
  exact ⟨h, by rw [h]; decide⟩

/-- C2 (amended): building `{">=": [{"var":"age"}, 18]}` yields a single
`Operator` node whose label is `"age" >= 18` (variable paths are quoted in
comparison labels) and which has zero children — both operands are treated as
simple and stay inlined in the label. -/
theorem claim_c2_amended :
    (parseRuleToTree 10 scenario2Rule none 0 [] 0).map Prod.fst =
      some (.mk "node-1" .operator "\"age\" >= 18" (some ">=")
        (some scenario2Rule) [] none 0 [] true false false) := by
  simp [scenario2Rule, parseRuleToTree, parseOperatorNode, isSimpleValue,
    isComplexShape, generateNodeId]
  exact ⟨rfl, buildLabel_scenario2⟩

/-! ## Claim C6 -/

/-- C6: a compilation pass started at depth 0 resets the node-id counter to 0
first, so the tree it returns — ids included — is independent of the counter
state an earlier pass left behind: two successive `parseRuleToTree` calls on
the same rule return identical trees. -/
theorem claim_c6_deterministic (fuel : Nat) (r : Rule) (path : List String)
    (c₁ c₂ : Nat) :
    parseRuleToTree fuel r none 0 path c₁ = parseRuleToTree fuel r none 0 path c₂ := by
  cases fuel with
  | zero => simp [parseRuleToTree]
  | succ f =>
    simp only [parseRuleToTree.eq_def]
    norm_num

/-! ## Claim C7 -/

/-- C7 (counterexample): `calculateFitZoom` subtracts the 40-pixel padding
from each viewport side before dividing; on a 100×100 canvas with a 100×1000
viewport it returns 1/5, while the claimed formula
`min(viewportW/width, viewportH/height, 1)` gives 1. -/
theorem claim_c7_counterexample :
    calculateFitZoom ⟨[], 100, 100⟩ 100 1000 40 = 1 / 5 ∧
    min (min ((100 : ℚ) / 100) ((1000 : ℚ) / 100)) 1 = 1 ∧
    (1 / 5 : ℚ) ≠ 1 := by
  refine ⟨?_, by norm_num, by norm_num⟩
  simp only [calculateFitZoom]
  norm_num

/-- C7 (amended): `calculateFitZoom` returns
`min((viewportW − 2·padding)/width, (viewportH − 2·padding)/height, 1)`
(padding defaults to 40), and in particular never exceeds 1. -/
theorem claim_c7_amended (layout : TreeLayout) (vw vh padding : ℚ) :
    calculateFitZoom layout vw vh padding =
      min (min ((vw - padding * 2) / layout.width)
        ((vh - padding * 2) / layout.height)) 1 ∧
    calculateFitZoom layout vw vh padding ≤ 1 :=
  ⟨rfl, min_le_right _ _⟩

end JsonLogicUi

namespace JsonLogicUi

/-! ## Claim C1 -/

theorem createChainedIfNode_nil (fuel : Nat) :
    ∀ (pid : Option String) (d : Nat) (pa : List String) (rule : Rule) (c : Nat),
      createChainedIfNode fuel [] pid d pa rule c = none := by
  induction fuel with
  | zero => intro pid d pa rule c; simp [createChainedIfNode]
  | succ f ih =>
    intro pid d pa rule c
    simp only [createChainedIfNode, generateNodeId]
    simp [Option.bind_eq_none, Option.map_eq_none', Prod.forall, ih]

theorem createChainedIfNode_pair (fuel : Nat) (x y : Rule) (pid : Option String)
    (d : Nat) (pa : List String) (rule : Rule) (c : Nat) :
    createChainedIfNode fuel [x, y] pid d pa rule c = none := by
  cases fuel with
  | zero => simp [createChainedIfNode]
  | succ f =>
    simp only [createChainedIfNode, generateNodeId]
    simp [Option.bind_eq_none, Option.map_eq_none', Prod.forall,
      createChainedIfNode_nil]

theorem createChainedIfNode_four (fuel : Nat) (a b x y : Rule)
    (pid : Option String) (d : Nat) (pa : List String) (rule : Rule) (c : Nat) :
    createChainedIfNode fuel [a, b, x, y] pid d pa rule c = none := by
  cases fuel with
  | zero => simp [createChainedIfNode]
  | succ f =>
    simp only [createChainedIfNode, generateNodeId]
    simp [Option.bind_eq_none, Option.map_eq_none', Prod.forall,
      createChainedIfNode_pair]

/-- C1 (divergence witness): on the chained `if` with the even operand count
4, `{"if": [true, 1, false, 2]}`, the Tree Builder returns within *no* fuel
bound: `createChainedIfNode` recurses on operand lists of lengths
4 → 2 → 0 → 0 → …, so the source recursion never reaches its single-operand
base case and never returns (a stack overflow in practice), contradicting the
claim that `parseRuleToTree` terminates with a `FalseBranch` default node. -/
theorem claim_c1_divergence (fuel counter : Nat) :
    parseRuleToTree fuel chainedIf4Rule none 0 [] counter = none := by
  cases fuel with
  | zero => simp [parseRuleToTree]
  | succ f =>
    simp only [chainedIf4Rule, parseRuleToTree.eq_def]
    norm_num
    cases f with
    | zero => simp [createIfNode]
    | succ g => simp [createIfNode, createChainedIfNode_four]

end JsonLogicUi

namespace JsonLogicUi

/-! ## Claims C5 and C10 -/

mutual

theorem strip_toggle : ∀ (t : TreeNode) (nodeId : String),
    stripExpanded (toggleNodeExpansion t nodeId) = stripExpanded t
  | .mk i ty l o v cs p d pa e hi se, nodeId => by
    by_cases h : (i == nodeId) = true
    · simp [toggleNodeExpansion, h, stripExpanded]
    · simp [toggleNodeExpansion, h, stripExpanded,
        stripForest_toggleForest cs nodeId]

theorem stripForest_toggleForest : ∀ (cs : List TreeNode) (nodeId : String),
    stripForest (toggleForest cs nodeId) = stripForest cs
  | [], _ => rfl
  | c :: rest, nodeId => by
    by_cases h : treeContains c nodeId = true
    · simp [toggleForest, h, stripForest, strip_toggle c nodeId]
    · simp [toggleForest, h, stripForest, stripForest_toggleForest rest nodeId]

end

mutual

theorem treeContains_toggle : ∀ (t : TreeNode) (nodeId q : String),
    treeContains (toggleNodeExpansion t nodeId) q = treeContains t q
  | .mk i ty l o v cs p d pa e hi se, nodeId, q => by
    by_cases h : (i == nodeId) = true
    · simp [toggleNodeExpansion, h, treeContains]
    · simp [toggleNodeExpansion, h, treeContains,
        forestContains_toggleForest cs nodeId q]

theorem forestContains_toggleForest : ∀ (cs : List TreeNode) (nodeId q : String),
    forestContains (toggleForest cs nodeId) q = forestContains cs q
  | [], _, _ => rfl
  | c :: rest, nodeId, q => by
    by_cases h : treeContains c nodeId = true
    · simp [toggleForest, h, forestContains, treeContains_toggle c nodeId q]
    · simp [toggleForest, h, forestContains,
        forestContains_toggleForest rest nodeId q]

end

mutual

theorem toggle_toggle : ∀ (t : TreeNode) (nodeId : String),
    toggleNodeExpansion (toggleNodeExpansion t nodeId) nodeId = t
  | .mk i ty l o v cs p d pa e hi se, nodeId => by
    by_cases h : (i == nodeId) = true
    · simp [toggleNodeExpansion, h]
    · simp [toggleNodeExpansion, h, toggleForest_toggleForest cs nodeId]

theorem toggleForest_toggleForest : ∀ (cs : List TreeNode) (nodeId : String),
    toggleForest (toggleForest cs nodeId) nodeId = cs
  | [], _ => rfl
  | c :: rest, nodeId => by
    by_cases h : treeContains c nodeId = true
    · simp [toggleForest, h, treeContains_toggle, toggle_toggle c nodeId]
    · simp [toggleForest, h, toggleForest_toggleForest rest nodeId]

end

theorem forall₂_flagAgrees_refl (nodeId : String) :
    ∀ (l : List (String × Bool)), List.Forall₂ (FlagAgrees nodeId) l l
  | [] => List.Forall₂.nil
  | _ :: l =>
    List.Forall₂.cons ⟨rfl, fun _ => rfl⟩ (forall₂_flagAgrees_refl nodeId l)

mutual

theorem flags_toggle : ∀ (t : TreeNode) (nodeId : String),
    List.Forall₂ (FlagAgrees nodeId)
      (expansionFlags (toggleNodeExpansion t nodeId)) (expansionFlags t)
  | .mk i ty l o v cs p d pa e hi se, nodeId => by
    by_cases h : (i == nodeId) = true
    · simp only [toggleNodeExpansion, h, if_true, expansionFlags]
      exact List.Forall₂.cons
        ⟨rfl, fun hne => absurd (eq_of_beq h) hne⟩
        (forall₂_flagAgrees_refl nodeId _)
    · simp only [toggleNodeExpansion, h, if_false, expansionFlags]
      exact List.Forall₂.cons ⟨rfl, fun _ => rfl⟩
        (forestFlags_toggleForest cs nodeId)

theorem forestFlags_toggleForest : ∀ (cs : List TreeNode) (nodeId : String),
    List.Forall₂ (FlagAgrees nodeId)
      (forestExpansionFlags (toggleForest cs nodeId)) (forestExpansionFlags cs)
  | [], _ => List.Forall₂.nil
  | c :: rest, nodeId => by
    by_cases h : treeContains c nodeId = true
    · simp only [toggleForest, h, if_true, forestExpansionFlags]
      exact List.rel_append (flags_toggle c nodeId)
        (forall₂_flagAgrees_refl nodeId _)
    · simp only [toggleForest, h, if_false, forestExpansionFlags]
      exact List.rel_append (forall₂_flagAgrees_refl nodeId _)
        (forestFlags_toggleForest rest nodeId)

end

mutual

theorem treeContains_eq_any_flags : ∀ (t : TreeNode) (q : String),
    treeContains t q = (expansionFlags t).any (fun a => a.1 == q)
  | .mk i ty l o v cs p d pa e hi se, q => by
    simp only [treeContains, expansionFlags, List.any_cons]
    rw [forestContains_eq_any_flags cs q]

theorem forestContains_eq_any_flags : ∀ (cs : List TreeNode) (q : String),
    forestContains cs q = (forestExpansionFlags cs).any (fun a => a.1 == q)
  | [], q => by simp [forestContains, forestExpansionFlags]
  | c :: rest, q => by
    simp only [forestContains, forestExpansionFlags, List.any_append]
    rw [treeContains_eq_any_flags c q, forestContains_eq_any_flags rest q]

end

theorem negateFirst_append_of_not_mem (nodeId : String) :
    ∀ (l₁ l₂ : List (String × Bool)), l₁.any (fun a => a.1 == nodeId) = false →
      negateFirst nodeId (l₁ ++ l₂) = l₁ ++ negateFirst nodeId l₂
  | [], l₂, _ => rfl
  | a :: l₁, l₂, h => by
    simp only [List.any_cons, Bool.or_eq_false_iff] at h
    simp [List.cons_append, negateFirst, h.1,
      negateFirst_append_of_not_mem nodeId l₁ l₂ h.2]

theorem negateFirst_append_of_mem (nodeId : String) :
    ∀ (l₁ l₂ : List (String × Bool)), l₁.any (fun a => a.1 == nodeId) = true →
      negateFirst nodeId (l₁ ++ l₂) = negateFirst nodeId l₁ ++ l₂
  | [], _, h => absurd h (by simp)
  | a :: l₁, l₂, h => by
    by_cases ha : (a.1 == nodeId) = true
    · simp [negateFirst, ha]
    · have h' : l₁.any (fun a => a.1 == nodeId) = true := by
        simp only [List.any_cons, Bool.or_eq_true] at h
        exact h.resolve_left ha
      simp [List.cons_append, negateFirst, ha,
        negateFirst_append_of_mem nodeId l₁ l₂ h']

mutual

theorem expansionFlags_toggle : ∀ (t : TreeNode) (nodeId : String),
    expansionFlags (toggleNodeExpansion t nodeId) =
      negateFirst nodeId (expansionFlags t)
  | .mk i ty l o v cs p d pa e hi se, nodeId => by
    by_cases h : (i == nodeId) = true
    · simp [toggleNodeExpansion, h, expansionFlags, negateFirst]
    · simp [toggleNodeExpansion, h, expansionFlags, negateFirst,
        forestFlags_toggleForest_eq cs nodeId]

theorem forestFlags_toggleForest_eq : ∀ (cs : List TreeNode) (nodeId : String),
    forestExpansionFlags (toggleForest cs nodeId) =
      negateFirst nodeId (forestExpansionFlags cs)
  | [], _ => rfl
  | c :: rest, nodeId => by
    by_cases hc : treeContains c nodeId = true
    · have hany : (expansionFlags c).any (fun a => a.1 == nodeId) = true := by
        rw [← treeContains_eq_any_flags]; exact hc
      simp only [toggleForest, hc, if_true, forestExpansionFlags]
      rw [expansionFlags_toggle c nodeId,
        negateFirst_append_of_mem nodeId _ _ hany]
    · have hany : (expansionFlags c).any (fun a => a.1 == nodeId) = false := by
        rw [← treeContains_eq_any_flags]; simpa using hc
      simp only [toggleForest, hc, if_false, forestExpansionFlags]
      rw [forestFlags_toggleForest_eq rest nodeId,
        negateFirst_append_of_not_mem nodeId _ _ hany]

end

theorem find?_negateFirst (nodeId : String) :
    ∀ (l : List (String × Bool)),
      (negateFirst nodeId l).find? (fun a => a.1 == nodeId) =
        (l.find? (fun a => a.1 == nodeId)).map (fun a => (a.1, !a.2))
  | [] => rfl
  | a :: l => by
    by_cases h : (a.1 == nodeId) = true
    · simp [negateFirst, h, List.find?_cons]
    · have hf : (a.1 == nodeId) = false := by simpa using h
      simp [negateFirst, hf, List.find?_cons, find?_negateFirst nodeId l]

/-- C5: `toggleNodeExpansion` is shape-preserving, flips exactly the targeted
flag, and is an involution.  In order: (1) the expansion-stripped tree (ids,
kinds, labels, operators, raw values, children, parents, depths, paths) is
unchanged; (2) the preorder `(id, expanded)` list of the result is that of the
input with precisely the first entry carrying the targeted id negated
(`negateFirst`) — so when the id occurs in `t` the targeted node's `expanded`
flag really differs, and no other node's flag changes; (3) concretely, `find?`
at the targeted id yields the old entry with its flag negated (in particular
`some` exactly when the id occurs); (4) occurrence of the id in the tree
coincides with occurrence in the flag list; (5) every non-targeted entry is
unchanged (`FlagAgrees`); and (6) toggling twice with the same id returns the
original tree.  (The source clones before mutating, so the input tree value is
never changed — inherent in this functional embedding.) -/
theorem claim_c5_toggle_shape_preserving (t : TreeNode) (nodeId : String) :
    stripExpanded (toggleNodeExpansion t nodeId) = stripExpanded t ∧
    expansionFlags (toggleNodeExpansion t nodeId) =
      negateFirst nodeId (expansionFlags t) ∧
    ((expansionFlags (toggleNodeExpansion t nodeId)).find?
        fun a => a.1 == nodeId) =
      ((expansionFlags t).find? fun a => a.1 == nodeId).map
        (fun a => (a.1, !a.2)) ∧
    treeContains t nodeId = (expansionFlags t).any (fun a => a.1 == nodeId) ∧
    List.Forall₂ (FlagAgrees nodeId)
      (expansionFlags (toggleNodeExpansion t nodeId)) (expansionFlags t) ∧
    toggleNodeExpansion (toggleNodeExpansion t nodeId) nodeId = t :=
  ⟨strip_toggle t nodeId,
   expansionFlags_toggle t nodeId,
   by rw [expansionFlags_toggle t nodeId]; exact find?_negateFirst nodeId _,
   treeContains_eq_any_flags t nodeId,
   flags_toggle t nodeId,
   toggle_toggle t nodeId⟩

mutual

theorem expanded_false_of_mem_setAllCollapsed :
    ∀ (t n : TreeNode), n ∈ flattenTree (setAllCollapsed t) → n.expanded = false
  | .mk i ty l o v cs p d pa e hi se, n, h => by
    simp only [setAllCollapsed, flattenTree] at h
    rcases List.mem_cons.mp h with h1 | h2
    · rw [h1]; rfl
    · exact expanded_false_of_mem_setForestCollapsed cs n h2

theorem expanded_false_of_mem_setForestCollapsed :
    ∀ (cs : List TreeNode) (n : TreeNode),
      n ∈ flattenForest (setForestCollapsed cs) → n.expanded = false
  | [], n, h => absurd h (by simp [setForestCollapsed, flattenForest])
  | c :: rest, n, h => by
    simp only [setForestCollapsed, flattenForest] at h
    rcases List.mem_append.mp h with h1 | h2
    · exact expanded_false_of_mem_setAllCollapsed c n h1
    · exact expanded_false_of_mem_setForestCollapsed rest n h2

end

mutual

theorem strip_setAllCollapsed : ∀ (t : TreeNode),
    stripExpanded (setAllCollapsed t) = stripExpanded t
  | .mk i ty l o v cs p d pa e hi se => by
    simp [setAllCollapsed, stripExpanded, stripForest_setForestCollapsed cs]

theorem stripForest_setForestCollapsed : ∀ (cs : List TreeNode),
    stripForest (setForestCollapsed cs) = stripForest cs
  | [] => rfl
  | c :: rest => by
    simp [setForestCollapsed, stripForest, strip_setAllCollapsed c,
      stripForest_setForestCollapsed rest]

end

/-- C10: `collapseAllNodes` keeps the root expanded, collapses every non-root
node (everything after the root in the preorder flattening), and changes no
field other than the `expanded` flags. -/
theorem claim_c10_collapse_all (t : TreeNode) :
    (collapseAllNodes t).expanded = true ∧
    ((flattenTree (collapseAllNodes t)).drop 1).all (fun n => !n.expanded) = true ∧
    stripExpanded (collapseAllNodes t) = stripExpanded t := by
  obtain ⟨i, ty, l, o, v, cs, p, d, pa, e, hi, se⟩ := t
  refine ⟨rfl, ?_, ?_⟩
  · rw [List.all_eq_true]
    intro n hn
    simp only [collapseAllNodes, flattenTree, List.drop_succ_cons,
      List.drop_zero] at hn
    have := expanded_false_of_mem_setForestCollapsed cs n hn
    simp [this]
  · simp [collapseAllNodes, stripExpanded, stripForest_setForestCollapsed cs]

end JsonLogicUi

namespace JsonLogicUi

/-! ## Claim C8 -/

/-- C8: for every input string, `escapeLabel` returns at most 50 characters
and the result contains no double quote, no angle bracket, no curly brace, no
pipe and no newline, so node/edge declaration lines built from it keep the
diagram document well-formed. -/
theorem claim_c8_escape_label_safe (s : String) :
    (escapeLabel s).length ≤ 50 ∧ (escapeLabel s).data.all safeChar = true := by
  constructor
  · show (List.take 50 _).length ≤ 50
    rw [List.length_take]
    omega
  · rw [List.all_eq_true]
    intro c hc
    have hc' := List.mem_of_mem_take (show c ∈ List.take 50
      ((((s.data.map escQuote).filter fun c => !isStrippedChar c).map
        escNewline).map escPipe) from hc)
    rcases List.mem_map.mp hc' with ⟨b, hb, rfl⟩
    rcases List.mem_map.mp hb with ⟨a, ha, rfl⟩
    rcases List.mem_filter.mp ha with ⟨haq, hstrip⟩
    rcases List.mem_map.mp haq with ⟨c0, _, rfl⟩
    by_cases hq : c0 = Char.ofNat 34
    · subst hq; decide
    · by_cases hn : c0 = Char.ofNat 10
      · subst hn; decide
      · by_cases hp : c0 = Char.ofNat 124
        · subst hp; decide
        · simp only [escQuote, if_neg hq] at hstrip ⊢
          simp only [escNewline, if_neg hn, escPipe, if_neg hp]
          simp only [isStrippedChar, Bool.not_or, Bool.and_eq_true,
            Bool.not_eq_true'] at hstrip
          obtain ⟨⟨⟨h60, h62⟩, h123⟩, h125⟩ := hstrip
          simp [safeChar, h60, h62, h123, h125, beq_eq_false_iff_ne.mpr hq,
            beq_eq_false_iff_ne.mpr hn, beq_eq_false_iff_ne.mpr hp]

end JsonLogicUi

namespace JsonLogicUi

/-! ## Claim C3 -/

/-- C3 (counterexample): on `{"and": []}` the Label Formatter returns the
empty string — the `and` branch joins an empty list of operand labels. -/
theorem claim_c3_counterexample :
    buildLabel (.obj [("and", .list [])]) false = "" := by
  simp [buildLabel, buildLabelOp, buildLabelJoin, isCompOp, buildLabels, joinSep]

mutual

theorem buildLabel_length_pos :
    ∀ (r : Rule) (compact : Bool), okShape r = true → 0 < (buildLabel r compact).length
  | .null, _, _ => by simp only [buildLabel]; decide
  | .str s, _, _ => by
    simp only [buildLabel]
    exact append_length_pos_right _ _ (by decide)
  | .num n, _, _ => by
    simp only [buildLabel]
    exact one_le_int_repr_length n
  | .bool b, _, _ => by cases b <;> (simp only [buildLabel]; decide)
  | .list xs, _, _ => by
    simp only [buildLabel]
    split
    · exact append_length_pos_right _ _ (by decide)
    · exact append_length_pos_right _ _ (by decide)
  | .obj [], _, _ => by simp only [buildLabel]; decide
  | .obj ((op, v) :: rest), _, h => by
    simp only [okShape, Bool.and_eq_true] at h
    obtain ⟨hguard, hv⟩ := h
    simp only [buildLabel, buildLabelOp]
    split_ifs with h1 h2 h3 h4 h5 h6 h7 h8 h9
    · exact buildLabelVar_length_pos v
    · rw [buildLabelComp.eq_def]
      split
      · exact append_length_pos_left _ _ (append_length_pos_right _ _ (by decide))
      · exact append_length_pos_right _ _ (by decide)
    · -- and
      refine buildLabelJoin_length_pos _ op v ?_ hv
      have hvar : isVariadicJoinOp op = true := by simp [isVariadicJoinOp, h3]
      rw [hvar] at hguard
      simpa using hguard
    · -- or
      refine buildLabelJoin_length_pos _ op v ?_ hv
      have hvar : isVariadicJoinOp op = true := by simp [isVariadicJoinOp, h4]
      rw [hvar] at hguard
      simpa using hguard
    · exact append_length_pos_left _ _ (by decide)
    · exact append_length_pos_left _ _ (by decide)
    · rw [buildLabelIn.eq_def]
      split
      · exact append_length_pos_left _ _ (append_length_pos_right _ _ (by decide))
      · exact append_length_pos_right _ _ (by decide)
    · -- arithmetic
      refine buildLabelJoin_length_pos _ op v ?_ hv
      have hvar : isVariadicJoinOp op = true := by simp [isVariadicJoinOp, h8]
      rw [hvar] at hguard
      simpa using hguard
    · exact append_length_pos_right _ _ (by decide)
    · exact append_length_pos_right _ _ (by decide)

theorem buildLabelJoin_length_pos :
    ∀ (sep op : String) (v : Rule), isEmptyList v = false → okShape v = true →
      0 < (buildLabelJoin sep op v).length
  | sep, op, .list [], hne, _ => by simp [isEmptyList] at hne
  | sep, op, .list (x :: tl), _, hv => by
    simp only [okShape, okShapeList, Bool.and_eq_true] at hv
    simp only [buildLabelJoin]
    exact joinSep_buildLabels_pos sep x tl hv.1
  | _, op, .null, _, _ => by
    simp only [buildLabelJoin]; exact append_length_pos_right _ _ (by decide)
  | _, op, .bool _, _, _ => by
    simp only [buildLabelJoin]; exact append_length_pos_right _ _ (by decide)
  | _, op, .num _, _, _ => by
    simp only [buildLabelJoin]; exact append_length_pos_right _ _ (by decide)
  | _, op, .str _, _, _ => by
    simp only [buildLabelJoin]; exact append_length_pos_right _ _ (by decide)
  | _, op, .obj _, _, _ => by
    simp only [buildLabelJoin]; exact append_length_pos_right _ _ (by decide)

theorem joinSep_buildLabels_pos :
    ∀ (sep : String) (x : Rule) (tl : List Rule), okShape x = true →
      0 < (joinSep sep (buildLabels (x :: tl))).length
  | sep, x, tl, hx =>
    lt_of_lt_of_le (buildLabel_length_pos x true hx)
      (by simpa [buildLabels] using
        joinSep_length_ge_head sep (buildLabel x true) (buildLabels tl))

theorem buildLabelVar_length_pos : ∀ (v : Rule), 0 < (buildLabelVar v).length
  | v => by
    simp only [buildLabelVar]
    split
    · split
      · decide
      · exact append_length_pos_right _ _ (by decide)
    · split
      · decide
      · exact append_length_pos_right _ _ (by decide)
    · decide

end

end JsonLogicUi

namespace JsonLogicUi

/-- C3 (amended): `buildLabel` is a total function (the embedding is
fuel-free, so termination is part of the definition) and returns a non-empty
string for every rule in which no `and`/`or`/arithmetic operation has an empty
operand array; on those degenerate shapes — e.g. `{"and": []}` — it returns
the empty string. -/
theorem claim_c3_amended (r : Rule) (compact : Bool) (h : okShape r = true) :
    buildLabel r compact ≠ "" := by
  have hp := buildLabel_length_pos r compact h
  intro he
  rw [he] at hp
  exact absurd hp (by decide)

/-- C3 witness: the amended totality/non-emptiness theorem applied at the
concrete rule `{"and": [true]}`. -/
theorem claim_c3_witness :
    okShape (Rule.obj [("and", Rule.list [Rule.bool true])]) = true ∧
    buildLabel (Rule.obj [("and", Rule.list [Rule.bool true])]) false ≠ "" :=
  ⟨by simp [okShape, okShapeList, isVariadicJoinOp, isArithOp, isEmptyList],
   claim_c3_amended _ false
     (by simp [okShape, okShapeList, isVariadicJoinOp, isArithOp, isEmptyList])⟩

end JsonLogicUi

namespace JsonLogicUi

/-! ## Claim C9 -/

theorem buildConditionLabel_scenario3 :
    buildConditionLabel (.obj [(">", .list [.obj [("var", .str "age")], .num 18])]) =
      "age > 18" := by
  simp [buildConditionLabel, formatOperand, formatVarName, isCompOp]
  rfl

/-- C9: emitting `{"if": [{">":[{"var":"age"},18]}, "adult", "minor"]}` as a
flow diagram produces exactly one diamond decision node (the `n1` condition
diamond), exactly the two outgoing edges from it labeled `✓ Yes` and `✗ No`,
and exactly two quoted terminator result nodes, one reading `adult` and one
reading `minor`. -/
theorem claim_c9_scenario3_flowchart :
    (emitFlowchart 20 scenario3Rule).map (fun st =>
      (st.lines.filter isDiamondLine,
       st.connections,
       (st.lines.filter isQuotedTerminatorLine).length,
       linesContaining "adult" st.lines,
       linesContaining "minor" st.lines)) =
    some (["    n1\x7b\"age  18\"\x7d"],
          ["    n1 -->|\"✓ Yes\"| n2", "    n1 -->|\"✗ No\"| n3"],
          2, 1, 1) := by
  simp only [scenario3Rule, emitFlowchart, flowchartHeader, processNode,
    processIfNode, processResultNode, buildConditionLabel_scenario3,
    escapeLabel, escQuote, isStrippedChar, escNewline, escPipe, genFlowId,
    pushLine, pushConn, connectTo, isIfShaped]
  decide

end JsonLogicUi

namespace JsonLogicUi

/-! ## Claim C4 -/

theorem calculateNodeWidth_ge (l : String) : 120 ≤ calculateNodeWidth l := by
  unfold calculateNodeWidth
  have h : (120 : ℕ) ≤ min (max (l.length * 8 + 60) 120) 400 := by omega
  exact_mod_cast h

theorem calculateNodeWidth_pos (l : String) : 0 < calculateNodeWidth l :=
  lt_of_lt_of_le (by norm_num) (calculateNodeWidth_ge l)

theorem nodeWidth_le_subtreeWidth (i : String) (ty : NodeType) (l : String)
    (o : Option String) (v : Option Rule) (cs : List TreeNode)
    (p0 : Option String) (d : Nat) (pa : List String) (e hi se : Bool) :
    calculateNodeWidth l ≤ subtreeWidth (.mk i ty l o v cs p0 d pa e hi se) := by
  rw [subtreeWidth]
  split
  · exact le_refl _
  · exact le_max_left _ _

theorem subtreeWidth_pos (n : TreeNode) : 0 < subtreeWidth n := by
  obtain ⟨i, ty, l, o, v, cs, p0, d, pa, e, hi, se⟩ := n
  exact lt_of_lt_of_le (calculateNodeWidth_pos l)
    (nodeWidth_le_subtreeWidth i ty l o v cs p0 d pa e hi se)

theorem childrenSum_nonneg (cs : List TreeNode) : 0 ≤ childrenSum cs := by
  induction cs with
  | nil => simp [childrenSum]
  | cons c rest ih =>
    have := subtreeWidth_pos c
    simp only [childrenSum]
    linarith

theorem childrenWidthAcc_eq (cs : List TreeNode) :
    ∀ acc : ℚ, childrenWidthAcc cs acc = acc + childrenSum cs := by
  induction cs with
  | nil => intro acc; simp [childrenWidthAcc, childrenSum]
  | cons c rest ih =>
    intro acc
    simp only [childrenWidthAcc, childrenSum, ih]
    ring

mutual

theorem placeV_bounds : ∀ (n : TreeNode) (x y : ℚ) (p : Placed),
    p ∈ placeV n x y →
    x ≤ p.x ∧ p.x + p.w ≤ x + subtreeWidth n ∧ y ≤ p.y
  | .mk i ty l o v cs p0 d pa e hi se, x, y, p, hp => by
    have hw := nodeWidth_le_subtreeWidth i ty l o v cs p0 d pa e hi se
    by_cases hc : (!e || cs.isEmpty) = true
    · rw [placeV] at hp
      rw [if_pos hc] at hp
      rcases List.mem_singleton.mp hp with rfl
      refine ⟨?_, ?_, le_refl y⟩ <;>
        (simp only [placedOf, TreeNode.label]; linarith)
    · rw [placeV] at hp
      rw [if_neg hc] at hp
      have hsw : subtreeWidth (.mk i ty l o v cs p0 d pa e hi se) =
          max (calculateNodeWidth l) (-24 + childrenSum cs) := by
        rw [subtreeWidth, if_neg hc, childrenWidthAcc_eq]
      rcases List.mem_cons.mp hp with rfl | hmem
      · refine ⟨?_, ?_, le_refl y⟩ <;>
          (simp only [placedOf, TreeNode.label]; linarith)
      · obtain ⟨h1, h2, h3⟩ := placeRow_bounds cs x (y + 44 + 50) p hmem
        have hmax : -24 + childrenSum cs ≤
            subtreeWidth (.mk i ty l o v cs p0 d pa e hi se) := by
          rw [hsw]; exact le_max_right _ _
        exact ⟨h1, by linarith, by linarith⟩

theorem placeRow_bounds : ∀ (cs : List TreeNode) (cx cy : ℚ) (p : Placed),
    p ∈ placeRow cs cx cy →
    cx ≤ p.x ∧ p.x + p.w ≤ cx + (childrenSum cs - 24) ∧ cy ≤ p.y
  | [], cx, cy, p, hp => absurd hp (by simp [placeRow])
  | c :: rest, cx, cy, p, hp => by
    rw [placeRow] at hp
    rcases List.mem_append.mp hp with h1 | h2
    · obtain ⟨g1, g2, g3⟩ := placeV_bounds c cx cy p h1
      have hr := childrenSum_nonneg rest
      refine ⟨g1, ?_, g3⟩
      simp only [childrenSum]
      linarith
    · obtain ⟨g1, g2, g3⟩ := placeRow_bounds rest (cx + subtreeWidth c + 24) cy p h2
      have hs := subtreeWidth_pos c
      refine ⟨by linarith, ?_, g3⟩
      simp only [childrenSum]
      linarith

end

theorem placeGroups_lower : ∀ (cs : List TreeNode) (cx cy : ℚ)
    (g : List Placed) (q : Placed), g ∈ placeGroups cs cx cy → q ∈ g → cx ≤ q.x
  | [], cx, cy, g, q, hg, _ => absurd hg (by simp [placeGroups])
  | c :: rest, cx, cy, g, q, hg, hq => by
    rw [placeGroups] at hg
    rcases List.mem_cons.mp hg with rfl | hg'
    · exact (placeV_bounds c cx cy q hq).1
    · have := placeGroups_lower rest (cx + subtreeWidth c + 24) cy g q hg' hq
      have hs := subtreeWidth_pos c
      linarith

theorem placeGroups_pairwise : ∀ (cs : List TreeNode) (cx cy : ℚ),
    List.Pairwise SpanSep (placeGroups cs cx cy)
  | [], _, _ => by simp [placeGroups]
  | c :: rest, cx, cy => by
    rw [placeGroups]
    refine List.Pairwise.cons ?_ (placeGroups_pairwise rest _ _)
    intro g' hg' p hp q hq
    have h1 := (placeV_bounds c cx cy p hp).2.1
    have h2 := placeGroups_lower rest (cx + subtreeWidth c + 24) cy g' q hg' hq
    linarith

mutual

theorem siblingsDisjoint_holds : ∀ (n : TreeNode) (x y : ℚ),
    SiblingsDisjoint n x y
  | .mk i ty l o v cs p0 d pa e hi se, x, y => by
    by_cases hc : (!e || cs.isEmpty) = true
    · rw [SiblingsDisjoint, if_pos hc]; trivial
    · rw [SiblingsDisjoint, if_neg hc]
      exact ⟨placeGroups_pairwise cs x (y + 44 + 50),
        siblingsDisjointRow_holds cs x (y + 44 + 50)⟩

theorem siblingsDisjointRow_holds : ∀ (cs : List TreeNode) (cx cy : ℚ),
    SiblingsDisjointRow cs cx cy
  | [], _, _ => trivial
  | c :: rest, cx, cy =>
    ⟨siblingsDisjoint_holds c cx cy,
     siblingsDisjointRow_holds rest (cx + subtreeWidth c + 24) cy⟩

end

mutual

theorem placeEdges_below : ∀ (n : TreeNode) (x y : ℚ) (ed : Placed × Placed),
    ed ∈ placeEdges n x y → ed.1.y < ed.2.y
  | .mk i ty l o v cs p0 d pa e hi se, x, y, ed, hed => by
    by_cases hc : (!e) = true
    · rw [placeEdges, if_pos hc] at hed
      exact absurd hed (by simp)
    · rw [placeEdges, if_neg hc] at hed
      exact edgeRow_below _ cs x (y + 44 + 50) (by simp [placedOf]; linarith) ed hed

theorem edgeRow_below : ∀ (parentP : Placed) (cs : List TreeNode) (cx cy : ℚ),
    parentP.y < cy → ∀ (ed : Placed × Placed),
    ed ∈ edgeRow parentP cs cx cy → ed.1.y < ed.2.y
  | parentP, [], cx, cy, _, ed, hed => absurd hed (by simp [edgeRow])
  | parentP, c :: rest, cx, cy, hpy, ed, hed => by
    rw [edgeRow] at hed
    rcases List.mem_append.mp hed with h1 | h2
    · rcases List.mem_cons.mp h1 with rfl | h1'
      · simpa [placedOf] using hpy
      · exact placeEdges_below c cx cy ed h1'
    · exact edgeRow_below parentP rest (cx + subtreeWidth c + 24) cy hpy ed h2

end

/-- C4: in the vertical layout, (a) every visible node of a subtree placed at
origin `x` stays — together with its visible descendants — inside the
horizontal span `[x, x + subtreeWidth]` allocated to that subtree, (b) at
every visible expanded node the spans of distinct sibling subtrees are
pairwise strictly separated (no overlap), and (c) every visible edge goes
strictly downward: the child's `y` exceeds its parent's.  `calculateTreeLayout`
places the root at origin `(0, 0)`, so the claim instantiates there. -/
theorem claim_c4_layout_nonoverlap (n : TreeNode) (x y : ℚ) :
    (∀ p ∈ placeV n x y, x ≤ p.x ∧ p.x + p.w ≤ x + subtreeWidth n ∧ y ≤ p.y) ∧
    SiblingsDisjoint n x y ∧
    (∀ ed ∈ placeEdges n x y, ed.1.y < ed.2.y) ∧
    (calculateTreeLayout n).nodes = placeV n 0 0 :=
  ⟨fun p hp => placeV_bounds n x y p hp,
   siblingsDisjoint_holds n x y,
   fun ed hed => placeEdges_below n x y ed hed,
   rfl⟩

end JsonLogicUi
